import Mathlib

/-!
Verification development for the Fin_helper batch analytics pipeline.

The development shallowly embeds the two core pipeline modules:

* `src/preprocessing.py` — per-client baseline statistics
  (`calculate_client_baseline`), percentile-band anomaly detection
  (`identify_anomalies`), bounded hierarchical cohort segmentation
  (`segment_clients_hierarchical`), cohort profile aggregation
  (`calculate_cohort_profiles`), output writing (`save_results`) and the
  run driver (`main`);
* `src/preprocessing_timeseries.py` — parametric z-band statistics
  (`calculate_client_statistics`) and anomaly metrics
  (`calculate_anomaly_metrics`).

Modelling conventions:

* Machine floats are modelled by exact rationals (`ℚ`); the verified claims
  are order/algebra facts that are exact-arithmetic properties of the
  formulas in the source.
* Irrational library calls (`numpy.std`, `pandas.std`, i.e. square roots,
  and `scipy.stats.norm.ppf(0.95) ≈ 1.645`) are abstracted as parameters
  (`sigma : List ℚ → ℚ` standing for the standard-deviation routine and
  `z : ℚ` for the z-score); every theorem quantifies over them, so the
  results hold for the actual irrational values in particular.
* A pandas data frame row is a `RawRecord`: the client key, the list of
  per-category turnover values of that reporting period (`оборот_*`
  columns) and the client's age. Demographic columns other than age, the
  cashback and activation columns, and fields of the output frames that no
  claim mentions (e.g. `оборот_min`/`оборот_max`, region strings) are not
  modelled; no claim refers to them.
* `numpy.percentile` (default linear interpolation) and `numpy.median`
  (= 50th percentile) are modelled by `percentile`.
* `NaN`-guards in the source (`np.isnan(...)`, `dropna`, `fillna` after
  `groupby().std()` on a single row) are modelled where they can fire in
  exact arithmetic: the standard deviation of a single observation is the
  only reachable one (`pandas` sample std of one value is `NaN`, filled
  with 0), and is modelled by the `obs.length ≤ 1` branch.
-/

namespace FinHelper

/-- One row of the input extract: one client, one reporting period.
`turnovers` holds the values of the `оборот_*` category columns of the row,
`age` the `возраст` column. -/
structure RawRecord where
  client : Nat
  turnovers : List ℚ
  age : ℚ
deriving DecidableEq

/-- The input extract: one row per client per reporting period. -/
abbrev Df := List RawRecord

/-- Models `values[values > 0]` — keep only strictly positive entries. -/
def positives (l : List ℚ) : List ℚ := l.filter (fun x => decide (0 < x))

/-- Models `df[df['ключ_клиента'] == c]` — the rows of one client, in frame order. -/
def clientRows (df : Df) (c : Nat) : List RawRecord :=
  df.filter (fun r => r.client == c)

/-- Models `client_data[oboroty_cols].values.flatten()` filtered to positive
entries: the client's positive per-category per-period turnovers. -/
def clientOborots (df : Df) (c : Nat) : List ℚ :=
  positives ((clientRows df c).flatMap (fun r => r.turnovers))

/-- Models `df['ключ_клиента'].unique()` — the distinct client keys. (pandas
`unique` keeps first-appearance order while `List.dedup` keeps the last
occurrence of each key; the set of keys — all any claim depends on — is
the same.) -/
def uniqueClients (df : Df) : List Nat :=
  (df.map (fun r => r.client)).dedup

/-- Models `numpy.mean` / `pandas.mean` on a list of rationals (0 for `[]`). -/
def mean (l : List ℚ) : ℚ := l.sum / l.length

/-- Models `numpy.sort` — ascending sort. -/
def sortQ (l : List ℚ) : List ℚ := l.insertionSort (· ≤ ·)

/-- Linear interpolation at rank `p` into the sorted list `s`:
`s[⌊p⌋] + (p − ⌊p⌋) * (s[⌊p⌋+1] − s[⌊p⌋])`, the helper behind
`numpy.percentile`'s default method. -/
def interp (s : List ℚ) (p : ℚ) : ℚ :=
  let i : Nat := min (Int.toNat ⌊p⌋) (s.length - 1)
  let a := s.getD i 0
  let b := s.getD (i + 1) a
  a + (p - (i : ℚ)) * (b - a)

/-- Models `numpy.percentile(l, q)` with the default linear-interpolation method;
`numpy.median l = percentile l 50`. -/
def percentile (l : List ℚ) (q : ℚ) : ℚ :=
  let s := sortQ l
  if s.length = 0 then 0 else interp s (q * ((s.length : ℚ) - 1) / 100)

/-- Models `cv = iqr / median if median > 0 else 0` with
`iqr = percentile(l, 65) - percentile(l, 35)` — the dispersion ratio of
`calculate_client_baseline` (lines 61–69 of `preprocessing.py`). -/
def cvOf (l : List ℚ) : ℚ :=
  if 0 < percentile l 50 then (percentile l 65 - percentile l 35) / percentile l 50 else 0

/-- Models `np.sort(all_spending)[-3:].sum() if len >= 3 else all_spending.sum()`,
divided by `all_spending.sum()`; `0` when there is no positive spending —
the concentration of `calculate_client_baseline` (lines 71–79). -/
def concentrationOf (l : List ℚ) : ℚ :=
  if l = [] then 0
  else
    (if 3 ≤ l.length then ((sortQ l).drop (l.length - 3)).sum else l.sum) / l.sum

/-- Models `client_data['возраст'].iloc[0]` — the age on the client's first row. -/
def ageOf (df : Df) (c : Nat) : ℚ :=
  ((clientRows df c).head?.map (fun r => r.age)).getD 0

/-- One row of the baseline table (`baseline_stats` entry of
`calculate_client_baseline`). `std_oborot` receives the value of the
abstracted standard-deviation routine. -/
structure BaselineRecord where
  client : Nat
  mean_oborot : ℚ
  std_oborot : ℚ
  cv : ℚ
  ci_lower : ℚ
  ci_upper : ℚ
  transactions : Nat
  concentration : ℚ
  age : ℚ
deriving DecidableEq

/-- The per-client body of the loop of `calculate_client_baseline`
(lines 39–95 of `preprocessing.py`): `none` models `continue` on an empty
positive-turnover history. The `np.isnan` guard of line 54 cannot fire in
exact arithmetic on a nonempty list and has no residue here. -/
def baselineFor (sigma : List ℚ → ℚ) (df : Df) (c : Nat) : Option BaselineRecord :=
  let oborots := clientOborots df c
  if oborots = [] then none
  else some
    { client := c
      mean_oborot := mean oborots
      std_oborot := sigma oborots
      cv := cvOf oborots
      ci_lower := percentile oborots 15
      ci_upper := percentile oborots 85
      transactions := oborots.length
      concentration := concentrationOf oborots
      age := ageOf df c }

/-- Models `calculate_client_baseline(df)` — one record per client with at least
one positive turnover entry (the final `dropna` is a no-op in exact
arithmetic). -/
def calculate_client_baseline (sigma : List ℚ → ℚ) (df : Df) : List BaselineRecord :=
  (uniqueClients df).filterMap (baselineFor sigma df)

/-- Models `(x < lo) or (x > hi)` — the out-of-band test both strategies use
(line 136 of `preprocessing.py`, lines 126–129 of
`preprocessing_timeseries.py`). -/
def isOutOfBand (lo hi x : ℚ) : Bool := decide (x < lo) || decide (hi < x)

/-- The anomaly type strings `высокие расходы` / `низкие расходы`. -/
inductive AType where
  | high
  | low
deriving DecidableEq

/-- The priority strings `высокий` / `средний`. -/
inductive APriority where
  | high
  | medium
deriving DecidableEq

/-- One row of the anomalies table (the dict built at lines 141–148 of
`preprocessing.py`; the purely textual `ожидаемый_диапазон` field is not
modelled). Note `deviation` holds `abs(deviation_pct)` as in the source. -/
structure AnomalyRecord where
  client : Nat
  atype : AType
  current : ℚ
  deviation : ℚ
  priority : APriority
deriving DecidableEq

/-- The per-row body of the loop of `identify_anomalies`
(lines 117–148): positive entries of the row, their mean as the current
turnover, lookup of the client's baseline (`none` models the two
`continue`s), strict out-of-band test, and the record built with
`abs(deviation_pct)`. -/
def anomalyFor (b : List BaselineRecord) (row : RawRecord) : Option AnomalyRecord :=
  let obs := positives row.turnovers
  if obs = [] then none
  else
    (b.find? (fun p => p.client == row.client)).bind (fun p =>
      if isOutOfBand p.ci_lower p.ci_upper (mean obs) then
        some
          { client := row.client
            atype := if p.ci_upper < mean obs then AType.high else AType.low
            current := mean obs
            deviation := |(mean obs - p.mean_oborot) / (p.mean_oborot + 1) * 100|
            priority :=
              if 30 < |(mean obs - p.mean_oborot) / (p.mean_oborot + 1) * 100| then APriority.high
              else APriority.medium }
      else none)

/-- Models `identify_anomalies(df, baseline_df)`. -/
def identify_anomalies (df : Df) (b : List BaselineRecord) : List AnomalyRecord :=
  df.filterMap (anomalyFor b)

/-! ### Percentile theory -/

/-- Elements of the sorted list, read through `getD`, increase with the
index. -/
lemma sorted_getD_mono {s : List ℚ} (hsort : List.Sorted (· ≤ ·) s) {i j : Nat}
    (hij : i ≤ j) (hj : j < s.length) : s.getD i 0 ≤ s.getD j 0 := by
  have hi : i < s.length := lt_of_le_of_lt hij hj
  rw [List.getD_eq_get _ _ hi, List.getD_eq_get _ _ hj]
  exact hsort.rel_get_of_le (by exact hij)

/-- In a sorted list the interpolation cell is nondecreasing:
`s.getD i 0 ≤ s.getD (i+1) (s.getD i 0)` (the out-of-range default keeps
the right endpoint equal to the left one). -/
lemma getD_succ_bound {s : List ℚ} (hsort : List.Sorted (· ≤ ·) s) {i : Nat}
    (hi : i < s.length) : s.getD i 0 ≤ s.getD (i + 1) (s.getD i 0) := by
  by_cases h : i + 1 < s.length
  · have hmono := sorted_getD_mono hsort (Nat.le_succ i) h
    rw [List.getD_eq_getElem _ _ h]
    rwa [List.getD_eq_getElem _ _ h] at hmono
  · rw [List.getD_eq_default _ _ (Nat.le_of_not_lt h)]

/-- For in-range positions the clamp in `interp` is inactive. -/
lemma interp_eq_of_le {s : List ℚ} (hn : 1 ≤ s.length) {p : ℚ}
    (hp0 : 0 ≤ p) (hple : p ≤ (s.length : ℚ) - 1) :
    interp s p =
      s.getD (Int.toNat ⌊p⌋) 0 +
        (p - (Int.toNat ⌊p⌋ : ℚ)) *
          (s.getD (Int.toNat ⌊p⌋ + 1) (s.getD (Int.toNat ⌊p⌋) 0) - s.getD (Int.toNat ⌊p⌋) 0) := by
  have hcast : ((s.length : ℚ) - 1) = ((s.length - 1 : ℕ) : ℚ) := by
    rw [Nat.cast_sub hn, Nat.cast_one]
  have hfle : ⌊p⌋ ≤ ((s.length - 1 : ℕ) : ℤ) := by
    calc ⌊p⌋ ≤ ⌊((s.length - 1 : ℕ) : ℚ)⌋ := Int.floor_le_floor (by rw [← hcast]; exact hple)
    _ = ((s.length - 1 : ℕ) : ℤ) := Int.floor_natCast _
  have hmin : min (Int.toNat ⌊p⌋) (s.length - 1) = Int.toNat ⌊p⌋ := min_eq_left (by omega)
  simp only [interp, hmin]

/-- The floor index of an in-range position is in range. -/
lemma floor_toNat_lt {s : List ℚ} (hn : 1 ≤ s.length) {p : ℚ}
    (hple : p ≤ (s.length : ℚ) - 1) : Int.toNat ⌊p⌋ < s.length := by
  have hcast : ((s.length : ℚ) - 1) = ((s.length - 1 : ℕ) : ℚ) := by
    rw [Nat.cast_sub hn, Nat.cast_one]
  have hfle : ⌊p⌋ ≤ ((s.length - 1 : ℕ) : ℤ) := by
    calc ⌊p⌋ ≤ ⌊((s.length - 1 : ℕ) : ℚ)⌋ := Int.floor_le_floor (by rw [← hcast]; exact hple)
    _ = ((s.length - 1 : ℕ) : ℤ) := Int.floor_natCast _
  omega

/-- Monotonicity of linear interpolation on a sorted list. -/
lemma interp_mono {s : List ℚ} (hsort : List.Sorted (· ≤ ·) s) (hn : 1 ≤ s.length)
    {p₁ p₂ : ℚ} (hp0 : 0 ≤ p₁) (hp12 : p₁ ≤ p₂) (hp2 : p₂ ≤ (s.length : ℚ) - 1) :
    interp s p₁ ≤ interp s p₂ := by
  have hp1 : p₁ ≤ (s.length : ℚ) - 1 := le_trans hp12 hp2
  have hq0 : 0 ≤ p₂ := le_trans hp0 hp12
  have hfl1 : (0 : ℤ) ≤ ⌊p₁⌋ := Int.floor_nonneg.mpr hp0
  have hfl2 : (0 : ℤ) ≤ ⌊p₂⌋ := Int.floor_nonneg.mpr hq0
  rw [interp_eq_of_le hn hp0 hp1, interp_eq_of_le hn hq0 hp2]
  have hi1q : ((Int.toNat ⌊p₁⌋ : ℕ) : ℚ) = ((⌊p₁⌋ : ℤ) : ℚ) := by
    exact_mod_cast Int.toNat_of_nonneg hfl1
  have hi2q : ((Int.toNat ⌊p₂⌋ : ℕ) : ℚ) = ((⌊p₂⌋ : ℤ) : ℚ) := by
    exact_mod_cast Int.toNat_of_nonneg hfl2
  have hfrac10 : 0 ≤ p₁ - (Int.toNat ⌊p₁⌋ : ℚ) := by
    rw [hi1q]; linarith [Int.floor_le p₁]
  have hfrac11 : p₁ - (Int.toNat ⌊p₁⌋ : ℚ) ≤ 1 := by
    rw [hi1q]; linarith [Int.lt_floor_add_one p₁]
  have hfrac20 : 0 ≤ p₂ - (Int.toNat ⌊p₂⌋ : ℚ) := by
    rw [hi2q]; linarith [Int.floor_le p₂]
  have hi1lt : Int.toNat ⌊p₁⌋ < s.length := floor_toNat_lt hn hp1
  have hi2lt : Int.toNat ⌊p₂⌋ < s.length := floor_toNat_lt hn hp2
  have hab1 := getD_succ_bound hsort hi1lt
  have hab2 := getD_succ_bound hsort hi2lt
  have hi12 : Int.toNat ⌊p₁⌋ ≤ Int.toNat ⌊p₂⌋ := by
    have := Int.floor_le_floor hp12; omega
  rcases eq_or_lt_of_le hi12 with heq | hlt
  · rw [heq] at hfrac10 hfrac11 hab1 ⊢
    have hd : p₁ - (Int.toNat ⌊p₂⌋ : ℚ) ≤ p₂ - (Int.toNat ⌊p₂⌋ : ℚ) := by linarith
    nlinarith [mul_le_mul_of_nonneg_right hd (sub_nonneg.mpr hab1)]
  · -- different cells: value₁ ≤ right endpoint of cell₁ ≤ left endpoint of cell₂ ≤ value₂
    have hstep : Int.toNat ⌊p₁⌋ + 1 ≤ Int.toNat ⌊p₂⌋ := hlt
    have hb1a2 : s.getD (Int.toNat ⌊p₁⌋ + 1) (s.getD (Int.toNat ⌊p₁⌋) 0) ≤
        s.getD (Int.toNat ⌊p₂⌋) 0 := by
      have hr : Int.toNat ⌊p₁⌋ + 1 < s.length := lt_of_le_of_lt hstep hi2lt
      rw [List.getD_eq_getElem _ _ hr]
      have := sorted_getD_mono hsort hstep hi2lt
      rwa [List.getD_eq_getElem _ _ hr] at this
    nlinarith [mul_le_mul_of_nonneg_right hfrac11 (sub_nonneg.mpr hab1),
      mul_le_mul_of_nonneg_right hfrac20 (sub_nonneg.mpr hab2)]

/-- Monotonicity: `numpy.percentile` is monotone in the requested percentile. -/
lemma percentile_mono (l : List ℚ) {q₁ q₂ : ℚ}
    (hq0 : 0 ≤ q₁) (hq12 : q₁ ≤ q₂) (hq100 : q₂ ≤ 100) :
    percentile l q₁ ≤ percentile l q₂ := by
  simp only [percentile]
  by_cases h0 : (sortQ l).length = 0
  · simp [h0]
  · simp only [h0, if_false]
    have hsort : (sortQ l).Sorted (· ≤ ·) := List.sorted_insertionSort _ l
    have hn : 1 ≤ (sortQ l).length := Nat.one_le_iff_ne_zero.mpr h0
    have hN : (0 : ℚ) ≤ ((sortQ l).length : ℚ) - 1 := by
      have : (1 : ℚ) ≤ ((sortQ l).length : ℚ) := by exact_mod_cast hn
      linarith
    apply interp_mono hsort hn
    · exact div_nonneg (mul_nonneg hq0 hN) (by norm_num)
    · exact (div_le_div_right (by norm_num)).mpr (mul_le_mul_of_nonneg_right hq12 hN)
    · rw [div_le_iff (by norm_num : (0:ℚ) < 100)]
      nlinarith

/-- Linear interpolation into a constant list is that constant. -/
lemma interp_const {s : List ℚ} {a : ℚ} (hmem : ∀ x ∈ s, x = a) (hn : s ≠ []) (p : ℚ) :
    interp s p = a := by
  have hn1 : 1 ≤ s.length := List.length_pos.mpr hn
  simp only [interp]
  set i := min (Int.toNat ⌊p⌋) (s.length - 1) with hidef
  have hilt : i < s.length := lt_of_le_of_lt (min_le_right _ _) (by omega)
  have ha : s.getD i 0 = a := by
    rw [List.getD_eq_getElem _ _ hilt]; exact hmem _ (List.getElem_mem _)
  rw [ha]
  by_cases hb : i + 1 < s.length
  · rw [List.getD_eq_getElem _ _ hb, hmem _ (List.getElem_mem _)]; ring
  · rw [List.getD_eq_default _ _ (Nat.le_of_not_lt hb)]; ring

/-- On a list whose elements are all equal to `a`, every percentile is `a`. -/
lemma percentile_const {l : List ℚ} {a : ℚ} (h : ∀ x ∈ l, x = a) (hne : l ≠ []) (q : ℚ) :
    percentile l q = a := by
  have hmem : ∀ x ∈ sortQ l, x = a := fun x hx =>
    h x ((List.perm_insertionSort (· ≤ ·) l).mem_iff.mp hx)
  have hlen : (sortQ l).length = l.length := (List.perm_insertionSort (· ≤ ·) l).length_eq
  have h0 : (sortQ l).length ≠ 0 := by
    rw [hlen]; exact fun hc => hne (List.length_eq_zero.mp hc)
  simp only [percentile, h0, if_false]
  exact interp_const hmem (fun hc => h0 (by rw [hc]; rfl)) _

/-- Evaluation lemma for `percentile` on concrete inputs. -/
lemma percentile_eval {l s : List ℚ} {q pos : ℚ} {i : Nat} {a b : ℚ}
    (hs : sortQ l = s) (hne : s.length ≠ 0)
    (hpos : q * ((s.length : ℚ) - 1) / 100 = pos)
    (hi : Int.toNat ⌊pos⌋ = i) (hile : i ≤ s.length - 1)
    (ha : s.getD i 0 = a) (hb : s.getD (i + 1) a = b) :
    percentile l q = a + (pos - (i : ℚ)) * (b - a) := by
  simp only [percentile, hs, hne, if_false]
  simp only [interp]
  rw [hpos, hi, min_eq_left hile, ha, hb]

/-! ### Inversion lemmas: what membership in an output table says -/

/-- Every row of the baseline table is the record the loop body builds for
its own client, over that client's positive turnover history. -/
lemma mem_baseline_inv {sigma : List ℚ → ℚ} {df : Df} {r : BaselineRecord}
    (h : r ∈ calculate_client_baseline sigma df) :
    clientOborots df r.client ≠ [] ∧
      r.mean_oborot = mean (clientOborots df r.client) ∧
      r.cv = cvOf (clientOborots df r.client) ∧
      r.ci_lower = percentile (clientOborots df r.client) 15 ∧
      r.ci_upper = percentile (clientOborots df r.client) 85 ∧
      r.concentration = concentrationOf (clientOborots df r.client) := by
  obtain ⟨c, _, hfc⟩ := List.mem_filterMap.mp h
  rw [baselineFor] at hfc
  by_cases he : clientOborots df c = []
  · rw [if_pos he] at hfc; exact absurd hfc (by simp)
  · rw [if_neg he] at hfc
    have hrec := Option.some.inj hfc
    subst hrec
    exact ⟨he, rfl, rfl, rfl, rfl, rfl⟩

/-- Every row of the anomalies table comes from a baseline row of the same
client, stores the absolute deviation, and gets `high` priority exactly
above the 30 % threshold. -/
lemma anomaly_mem_inv {df : Df} {b : List BaselineRecord} {a : AnomalyRecord}
    (h : a ∈ identify_anomalies df b) :
    ∃ p ∈ b, p.client = a.client ∧
      a.deviation = |(a.current - p.mean_oborot) / (p.mean_oborot + 1) * 100| ∧
      (a.priority = APriority.high ↔ 30 < a.deviation) ∧
      isOutOfBand p.ci_lower p.ci_upper a.current = true := by
  obtain ⟨row, _, hrow⟩ := List.mem_filterMap.mp h
  rw [anomalyFor] at hrow
  by_cases he : positives row.turnovers = []
  · rw [if_pos he] at hrow; exact absurd hrow (by simp)
  · rw [if_neg he] at hrow
    rcases hfind : (b.find? (fun p => p.client == row.client)) with _ | p
    · rw [hfind, Option.none_bind] at hrow; exact absurd hrow (by simp)
    · rw [hfind, Option.some_bind] at hrow
      have hpmem : p ∈ b := List.mem_of_find?_eq_some hfind
      have hpcl : p.client = row.client := by
        have := List.find?_some hfind
        simpa using this
      by_cases hband : isOutOfBand p.ci_lower p.ci_upper (mean (positives row.turnovers)) = true
      · rw [if_pos hband] at hrow
        have hrec := Option.some.inj hrow
        subst hrec
        refine ⟨p, hpmem, hpcl, rfl, ?_, hband⟩
        constructor
        · intro hp
          by_contra hlt
          rw [if_neg hlt] at hp
          exact APriority.noConfusion hp
        · intro hlt
          rw [if_pos hlt]
      · rw [if_neg hband] at hrow; exact absurd hrow (by simp)

/-! ### `preprocessing_timeseries.py` — parametric z-band strategy -/

/-- Models `df['общий_оборот']` of one row: the sum over all `оборот_*` columns
(line 56 of `preprocessing_timeseries.py`; no positivity filter here). -/
def rowTotal (r : RawRecord) : ℚ := r.turnovers.sum

/-- One row of `client_stats` (demographic passthrough fields and
`оборот_min`/`оборот_max`, which no claim mentions, are not modelled). -/
structure TsStat where
  client : Nat
  mean_oborot : ℚ
  std_oborot : ℚ
  ci_lower : ℚ
  ci_upper : ℚ
  cv : ℚ
  periods : Nat
deriving DecidableEq

/-- The per-client row of `calculate_client_statistics`
(lines 56–88 of `preprocessing_timeseries.py`): the per-period totals are
grouped by client; the sample standard deviation of a single observation
is `NaN` and is filled with 0 (`fillna(0)`, line 77), any other value is
supplied by the abstracted `sigma`; the band is `mean ± z·std` with the
lower side clipped at 0 (lines 80–84); `cv = std / (mean + 1)` (line 88). -/
def statFor (sigma : List ℚ → ℚ) (z : ℚ) (df : Df) (c : Nat) : TsStat :=
  let obs := (clientRows df c).map rowTotal
  let m := mean obs
  let sd := if obs.length ≤ 1 then 0 else sigma obs
  { client := c
    mean_oborot := m
    std_oborot := sd
    ci_lower := max 0 (m - z * sd)
    ci_upper := m + z * sd
    cv := sd / (m + 1)
    periods := obs.length }

/-- Models `calculate_client_statistics(df)` — one statistics row per client
(`groupby` sorts by key; the claims below are order-insensitive, so the
table is modelled in order of first appearance). -/
def calculate_client_statistics (sigma : List ℚ → ℚ) (z : ℚ) (df : Df) : List TsStat :=
  (uniqueClients df).map (statFor sigma z df)

/-- One row of `df_with_ci` restricted to the fields the claims mention
(the cashback/activation derived columns of lines 106–117 feed no claim
and are not modelled). -/
structure TsAnomalyRow where
  client : Nat
  oborot : ℚ
  is_anomaly : Bool
  deviation : ℚ
deriving DecidableEq

/-- The per-row result of `calculate_anomaly_metrics`
(lines 120–135 of `preprocessing_timeseries.py`): the inner merge keeps
the rows whose client has a statistics row, attaches `is_anomaly`
(strict out-of-band test against the z-band) and the signed
`deviation_pct`. -/
def tsRowFor (stats : List TsStat) (row : RawRecord) : Option TsAnomalyRow :=
  (stats.find? (fun s => s.client == row.client)).bind (fun s =>
    some
      { client := row.client
        oborot := rowTotal row
        is_anomaly := isOutOfBand s.ci_lower s.ci_upper (rowTotal row)
        deviation := (rowTotal row - s.mean_oborot) / (s.mean_oborot + 1) * 100 })

/-- Models `calculate_anomaly_metrics(df, client_stats)` — `df_with_ci`. -/
def calculate_anomaly_metrics (df : Df) (stats : List TsStat) : List TsAnomalyRow :=
  df.filterMap (tsRowFor stats)

/-! ### Cohort segmentation (`segment_clients_hierarchical`) -/

/-- The feature vector of one baseline row:
`['оборот_mean', 'cv', 'концентрация', 'транзакции_кол']` (line 167 of
`preprocessing.py`; the `fillna` imputations of lines 170–186 are no-ops in
exact arithmetic, where no field is `NaN`). -/
def featureVector (r : BaselineRecord) : List ℚ :=
  [r.mean_oborot, r.cv, r.concentration, (r.transactions : ℚ)]

/-- Componentwise mean of a set of feature vectors (the centroid used by
Ward linkage). -/
def centroid (pts : List (List ℚ)) : List ℚ :=
  match pts with
  | [] => []
  | p :: ps => (ps.foldl (List.zipWith (· + ·)) p).map (fun x => x / ((ps.length + 1 : ℕ) : ℚ))

/-- Squared Euclidean distance of two feature vectors. -/
def sqDist (v w : List ℚ) : ℚ := (List.zipWith (fun x y => (x - y) ^ 2) v w).sum

/-- The points of one cluster (clusters are lists of row indices). -/
def clusterPoints (pts : List (List ℚ)) (c : List Nat) : List (List ℚ) :=
  c.map (fun i => pts.getD i [])

/-- Ward linkage distance
`|A|·|B| / (|A|+|B|) · ‖centroid A − centroid B‖²` between two clusters,
the merge criterion of `AgglomerativeClustering(linkage='ward')`. -/
def wardDist (pts : List (List ℚ)) (A B : List Nat) : ℚ :=
  (((A.length : ℚ) * (B.length : ℚ)) / ((A.length : ℚ) + (B.length : ℚ))) *
    sqDist (centroid (clusterPoints pts A)) (centroid (clusterPoints pts B))

/-- All index pairs `(i, j)` with `i < j < n`. -/
def allPairs (n : Nat) : List (Nat × Nat) :=
  (List.range n).flatMap (fun i => ((List.range n).filter (fun j => i < j)).map (fun j => (i, j)))

/-- The pair of cluster indices with minimal Ward distance. -/
def argminPair (pts : List (List ℚ)) (cs : List (List Nat)) : Nat × Nat :=
  (allPairs cs.length).foldl
    (fun best p =>
      if wardDist pts (cs.getD p.1 []) (cs.getD p.2 []) <
          wardDist pts (cs.getD best.1 []) (cs.getD best.2 []) then p
      else best)
    (0, 1)

/-- One agglomerative merge step: replace the closest two clusters by
their union. -/
def mergeOnce (pts : List (List ℚ)) (cs : List (List Nat)) : List (List Nat) :=
  let ij := argminPair pts cs
  ((cs.eraseIdx ij.2).eraseIdx ij.1) ++ [cs.getD ij.1 [] ++ cs.getD ij.2 []]

/-- The agglomerative loop: merge closest clusters until at most `k`
remain (`AgglomerativeClustering(n_clusters=k)` stops at exactly `k` when
the input has at least `k` rows). `fuel` bounds the recursion. -/
def mergeLoop (pts : List (List ℚ)) (k : Nat) : Nat → List (List Nat) → List (List Nat)
  | 0, cs => cs
  | fuel + 1, cs =>
    if cs.length ≤ k ∨ cs.length < 2 then cs
    else mergeLoop pts k fuel (mergeOnce pts cs)

/-- The initial clustering: one singleton cluster per row. -/
def singletons (n : Nat) : List (List Nat) := (List.range n).map (fun i => [i])

/-- Models `fit_predict`: run the agglomerative loop and read the labels off —
one `(row index, cohort id)` pair per row, the cohort id being the index
of the final cluster holding the row. -/
def fit_predict (k : Nat) (pts : List (List ℚ)) : List (Nat × Nat) :=
  let final := mergeLoop pts k pts.length (singletons pts.length)
  ((List.range final.length).zip final).flatMap (fun ci => ci.2.map (fun m => (m, ci.1)))

/-- Models `segment_clients_hierarchical(baseline_df, max_cohorts)`
(lines 159–204 of `preprocessing.py`): scale the four features
(`StandardScaler`, abstracted as the row-count-preserving `scale`
parameter since unit-variance scaling divides by an irrational square
root) and cluster; the result is the `когорта` assignment column as
`(row index, cohort id)` pairs. -/
def segment_clients_hierarchical (scale : List (List ℚ) → List (List ℚ)) (k : Nat)
    (baseline : List BaselineRecord) : List (Nat × Nat) :=
  fit_predict k (scale (baseline.map featureVector))

/-- One row of the cohort-profiles table (`groupby('когорта')` aggregate,
lines 211–218; the remaining aggregate columns add nothing to the claims
and follow the same `mean` pattern). -/
structure CohortProfile where
  cohort : Nat
  size : Nat
  mean_oborot : ℚ
  mean_cv : ℚ
  mean_concentration : ℚ
deriving DecidableEq

/-- Models `calculate_cohort_profiles(baseline_df)` — one row per realized cohort
id of the assignment column. -/
def calculate_cohort_profiles (baseline : List BaselineRecord)
    (assign : List (Nat × Nat)) : List CohortProfile :=
  ((assign.map Prod.snd).dedup).map (fun cid =>
    let members := (assign.filter (fun pr => pr.2 == cid)).map Prod.fst
    let recs := members.filterMap (fun i => baseline.get? i)
    { cohort := cid
      size := members.length
      mean_oborot := mean (recs.map (fun r => r.mean_oborot))
      mean_cv := mean (recs.map (fun r => r.cv))
      mean_concentration := mean (recs.map (fun r => r.concentration)) })

/-! ### The run driver (`main`) and the output writer (`save_results`) -/

/-- Models `save_results(baseline_df, anomalies_df, cohort_profiles)`
(lines 234–248 of `preprocessing.py`): the three files written by one
successful run, in write order, with their row counts. The writes sit at
the very end of `main` and are modelled as infallible effects. -/
def save_results (b : List BaselineRecord) (a : List AnomalyRecord)
    (p : List CohortProfile) : List (String × Nat) :=
  [("client_baseline.csv", b.length), ("anomalies.csv", a.length),
   ("cohort_profiles.csv", p.length)]

/-- The failure modes of a run, per the source's own taxonomy: a schema
error raised while loading/resolving columns, the explicit empty-baseline
check of `main` (lines 263–265), and the `ValueError` that
`AgglomerativeClustering` raises when there are fewer rows than
`n_clusters`. All are caught by the `try/except` of `main`, which then
returns `False` having written nothing. -/
inductive StageError where
  | schema
  | emptyBaseline
  | clustering
deriving DecidableEq

/-- Models `main()` (lines 251–289 of `preprocessing.py`): load (abstracted as an
`Except` input, since a schema failure happens before any pipeline stage),
baseline, empty check, anomalies, segmentation (with the
fewer-rows-than-clusters error), profiles, save. Returns the success flag
and the list of files written: every failure path precedes the first
write. -/
def mainRun (sigma : List ℚ → ℚ) (scale : List (List ℚ) → List (List ℚ)) (k : Nat)
    (load : Except StageError Df) : Bool × List (String × Nat) :=
  match load with
  | Except.error _ => (false, [])
  | Except.ok df =>
    let b := calculate_client_baseline sigma df
    if b.length = 0 then (false, [])
    else if b.length < k then (false, [])
    else
      let a := identify_anomalies df b
      let assign := segment_clients_hierarchical scale k b
      let p := calculate_cohort_profiles b assign
      (true, save_results b a p)

/-- The full pipeline as one function of its input and configuration
(stages 2–5 of `main`), used to state determinism. -/
def runPipeline (sigma : List ℚ → ℚ) (scale : List (List ℚ) → List (List ℚ)) (k : Nat)
    (df : Df) : List BaselineRecord × List AnomalyRecord × List CohortProfile :=
  let b := calculate_client_baseline sigma df
  let a := identify_anomalies df b
  let assign := segment_clients_hierarchical scale k b
  let p := calculate_cohort_profiles b assign
  (b, a, p)

/-! ### Clustering cardinality lemmas -/

/-- A fold that at each step keeps either the accumulator or the current
element ends on the initial value or a list element. -/
lemma foldl_choice {α : Type} (c : α → α → Prop) [inst : ∀ b a, Decidable (c b a)] :
    ∀ (l : List α) (init : α),
      l.foldl (fun b a => if c b a then a else b) init ∈ init :: l := by
  intro l
  induction l with
  | nil => intro init; simp
  | cons a t ih =>
    intro init
    rw [List.foldl_cons]
    by_cases h : c init a
    · rw [if_pos h]
      rcases List.mem_cons.mp (ih a) with h1 | h1
      · rw [h1]; exact List.mem_cons_of_mem _ (List.mem_cons_self _ _)
      · exact List.mem_cons_of_mem _ (List.mem_cons_of_mem _ h1)
    · rw [if_neg h]
      rcases List.mem_cons.mp (ih init) with h1 | h1
      · rw [h1]; exact List.mem_cons_self _ _
      · exact List.mem_cons_of_mem _ (List.mem_cons_of_mem _ h1)

/-- Every element of `allPairs n` is an ordered in-range pair. -/
lemma mem_allPairs {n : Nat} {pr : Nat × Nat} (h : pr ∈ allPairs n) :
    pr.1 < pr.2 ∧ pr.2 < n := by
  obtain ⟨i, _, hmem⟩ := List.mem_flatMap.mp h
  obtain ⟨j, hj, hpr⟩ := List.mem_map.mp hmem
  obtain ⟨hjr, hij⟩ := List.mem_filter.mp hj
  subst hpr
  exact ⟨by simpa using hij, List.mem_range.mp hjr⟩

/-- The chosen merge pair is an ordered in-range pair whenever there are
at least two clusters. -/
lemma argminPair_valid (pts : List (List ℚ)) {cs : List (List Nat)}
    (h2 : 2 ≤ cs.length) :
    (argminPair pts cs).1 < (argminPair pts cs).2 ∧
      (argminPair pts cs).2 < cs.length := by
  have hmem := foldl_choice
    (fun best p => wardDist pts (cs.getD p.1 []) (cs.getD p.2 []) <
      wardDist pts (cs.getD best.1 []) (cs.getD best.2 []))
    (allPairs cs.length) (0, 1)
  rw [argminPair]
  rcases List.mem_cons.mp hmem with hinit | hin
  · rw [hinit]; exact ⟨by norm_num, h2⟩
  · exact mem_allPairs hin

/-- A merge step removes exactly one cluster. -/
lemma length_mergeOnce (pts : List (List ℚ)) {cs : List (List Nat)}
    (h2 : 2 ≤ cs.length) : (mergeOnce pts cs).length = cs.length - 1 := by
  obtain ⟨hij, hj⟩ := argminPair_valid pts h2
  rw [mergeOnce]
  rw [List.length_append, List.length_eraseIdx, List.length_eraseIdx]
  rw [if_pos hj, if_pos (by omega)]
  simp only [List.length_singleton]
  omega

/-- The agglomerative loop ends with at most `k` clusters once the fuel
covers the needed merges. -/
lemma mergeLoop_length_le (pts : List (List ℚ)) {k : Nat} (hk : 1 ≤ k) :
    ∀ (fuel : Nat) (cs : List (List Nat)), cs.length ≤ fuel + k →
      (mergeLoop pts k fuel cs).length ≤ k := by
  intro fuel
  induction fuel with
  | zero => intro cs h; simpa [mergeLoop] using h
  | succ f ih =>
    intro cs h
    rw [mergeLoop]
    by_cases hstop : cs.length ≤ k ∨ cs.length < 2
    · rw [if_pos hstop]; omega
    · rw [if_neg hstop]
      push_neg at hstop
      apply ih
      rw [length_mergeOnce pts (by omega)]
      omega

/-- Every label emitted by `fit_predict` indexes a final cluster. -/
lemma fit_predict_label_lt {k : Nat} {pts : List (List ℚ)} {pr : Nat × Nat}
    (h : pr ∈ fit_predict k pts) :
    pr.2 < (mergeLoop pts k pts.length (singletons pts.length)).length := by
  rw [fit_predict] at h
  obtain ⟨ci, hci, hmem⟩ := List.mem_flatMap.mp h
  obtain ⟨m, _, hpr⟩ := List.mem_map.mp hmem
  subst hpr
  exact List.mem_range.mp (List.of_mem_zip hci).1

/-! ### Small facts about the embedded operations -/

/-- Filtered turnovers are strictly positive. -/
lemma mem_positives {l : List ℚ} {x : ℚ} (h : x ∈ positives l) : 0 < x :=
  of_decide_eq_true (List.mem_filter.mp h).2

/-- Entries of a client's positive turnover history are strictly positive. -/
lemma clientOborots_pos {df : Df} {c : Nat} {x : ℚ} (h : x ∈ clientOborots df c) : 0 < x :=
  mem_positives h

/-! ### Claim theorems -/

/-- Claim C1 (corrected). The percentile band bounds do *not* always bracket
the mean; what holds is that they bracket the *median* of the client's
filtered positive turnovers: for every emitted baseline row,
`ci_lower = P15 ≤ P50 = median ≤ P85 = ci_upper`. -/
theorem c1_band_brackets_median (sigma : List ℚ → ℚ) (df : Df) (r : BaselineRecord)
    (h : r ∈ calculate_client_baseline sigma df) :
    r.ci_lower ≤ percentile (clientOborots df r.client) 50 ∧
      percentile (clientOborots df r.client) 50 ≤ r.ci_upper := by
  obtain ⟨_, _, _, hlo, hhi, _⟩ := mem_baseline_inv h
  rw [hlo, hhi]
  exact ⟨percentile_mono _ (by norm_num) (by norm_num) (by norm_num),
    percentile_mono _ (by norm_num) (by norm_num) (by norm_num)⟩

/-- Claim C2 (corrected). For every emitted baseline row the spending
concentration lies in `[0, 1]`; and it equals 1 exactly under the
condition the code implements: at most 3 positive *category-period
entries* (not at most 3 nonzero categories — see the counterexample). -/
theorem c2_concentration_bounds (sigma : List ℚ → ℚ) (df : Df) (r : BaselineRecord)
    (h : r ∈ calculate_client_baseline sigma df) :
    (0 ≤ r.concentration ∧ r.concentration ≤ 1) ∧
      ((clientOborots df r.client).length ≤ 3 → r.concentration = 1) := by
  obtain ⟨hne, _, _, _, _, hconc⟩ := mem_baseline_inv h
  have hpos : ∀ x ∈ clientOborots df r.client, 0 < x := fun x hx => clientOborots_pos hx
  have hsum : 0 < (clientOborots df r.client).sum := List.sum_pos _ hpos hne
  have hperm : (sortQ (clientOborots df r.client)).Perm (clientOborots df r.client) :=
    List.perm_insertionSort _ _
  rw [hconc, concentrationOf, if_neg hne]
  refine ⟨⟨?_, ?_⟩, ?_⟩
  · apply div_nonneg _ hsum.le
    split_ifs with h3
    · exact List.sum_nonneg fun x hx =>
        (hpos x (hperm.mem_iff.mp (List.mem_of_mem_drop hx))).le
    · exact hsum.le
  · rw [div_le_one hsum]
    split_ifs with h3
    · have htake : 0 ≤ ((sortQ (clientOborots df r.client)).take
          ((clientOborots df r.client).length - 3)).sum :=
        List.sum_nonneg fun x hx => (hpos x (hperm.mem_iff.mp (List.mem_of_mem_take hx))).le
      have hsplit : ((sortQ (clientOborots df r.client)).take
            ((clientOborots df r.client).length - 3)).sum +
          ((sortQ (clientOborots df r.client)).drop
            ((clientOborots df r.client).length - 3)).sum =
          (clientOborots df r.client).sum := by
        rw [← List.sum_append, List.take_append_drop]
        exact hperm.sum_eq
      linarith
    · exact le_refl _
  · intro hle
    split_ifs with h3
    · have h0 : (clientOborots df r.client).length - 3 = 0 := by omega
      rw [h0, List.drop_zero, hperm.sum_eq, div_self (ne_of_gt hsum)]
    · rw [div_self (ne_of_gt hsum)]

/-- Claim C3 (confirmed). For every emitted baseline row the dispersion
ratio equals `(P65 − P35) / median` of the client's filtered positive
turnovers, guarded to 0 when the median is not positive; it is always
nonnegative, and 0 whenever all the client's positive observations are
equal. -/
theorem c3_dispersion_ratio (sigma : List ℚ → ℚ) (df : Df) (r : BaselineRecord)
    (h : r ∈ calculate_client_baseline sigma df) :
    (r.cv = if 0 < percentile (clientOborots df r.client) 50 then
        (percentile (clientOborots df r.client) 65 - percentile (clientOborots df r.client) 35) /
          percentile (clientOborots df r.client) 50
      else 0) ∧
    0 ≤ r.cv ∧
    ((∀ x ∈ clientOborots df r.client, ∀ y ∈ clientOborots df r.client, x = y) → r.cv = 0) := by
  obtain ⟨hne, _, hcv, _, _, _⟩ := mem_baseline_inv h
  refine ⟨by rw [hcv, cvOf], ?_, ?_⟩
  · rw [hcv, cvOf]
    split_ifs with hm
    · exact div_nonneg
        (sub_nonneg.mpr (percentile_mono _ (by norm_num) (by norm_num) (by norm_num))) hm.le
    · exact le_refl _
  · intro hall
    obtain ⟨a, ha⟩ : ∃ a, ∀ x ∈ clientOborots df r.client, x = a := by
      obtain ⟨y, hy⟩ := List.exists_mem_of_ne_nil _ hne
      exact ⟨y, fun x hx => hall x hx y hy⟩
    rw [hcv, cvOf, percentile_const ha hne 65, percentile_const ha hne 35]
    split_ifs with hm
    · rw [sub_self, zero_div]
    · rfl

/-- Claim C4 (corrected). In the percentile-band strategy every emitted
anomaly record stores the *absolute value* of
`(observed − mean) / (mean + 1) · 100` (not the signed value) and is
`high`-priority exactly when that absolute deviation exceeds 30; in the
z-band strategy the recorded `deviation_pct` is the signed formula (and
no priority tier exists in that table). -/
theorem c4_deviation_and_priority :
    (∀ (df : Df) (b : List BaselineRecord) (a : AnomalyRecord), a ∈ identify_anomalies df b →
      ∃ p ∈ b, p.client = a.client ∧
        a.deviation = |(a.current - p.mean_oborot) / (p.mean_oborot + 1) * 100| ∧
        (a.priority = APriority.high ↔ 30 < a.deviation)) ∧
    (∀ (df : Df) (stats : List TsStat) (x : TsAnomalyRow), x ∈ calculate_anomaly_metrics df stats →
      ∃ s ∈ stats, s.client = x.client ∧
        x.deviation = (x.oborot - s.mean_oborot) / (s.mean_oborot + 1) * 100) := by
  constructor
  · intro df b a h
    obtain ⟨p, hp, h1, h2, h3, _⟩ := anomaly_mem_inv h
    exact ⟨p, hp, h1, h2, h3⟩
  · intro df stats x h
    obtain ⟨row, _, hrow⟩ := List.mem_filterMap.mp h
    rw [tsRowFor] at hrow
    rcases hfind : stats.find? (fun s => s.client == row.client) with _ | s
    · rw [hfind, Option.none_bind] at hrow; exact absurd hrow (by simp)
    · rw [hfind, Option.some_bind] at hrow
      have hrec := Option.some.inj hrow
      subst hrec
      exact ⟨s, List.mem_of_find?_eq_some hfind, by simpa using List.find?_some hfind, rfl⟩

/-- Claim C5 (confirmed). With at least as many baseline rows as the
configured maximum `k ≥ 1`, the segmenter realizes at most `k` distinct
cohort ids, and the cohort-profiles table has at most `k` rows — for any
row-count-preserving feature scaling. -/
theorem c5_cohort_count_bounded (scale : List (List ℚ) → List (List ℚ)) (k : Nat)
    (baseline : List BaselineRecord) (hk : 1 ≤ k) (hn : k ≤ baseline.length) :
    ((segment_clients_hierarchical scale k baseline).map Prod.snd).toFinset.card ≤ k ∧
      (calculate_cohort_profiles baseline
        (segment_clients_hierarchical scale k baseline)).length ≤ k := by
  have hfin : (mergeLoop (scale (baseline.map featureVector)) k
      (scale (baseline.map featureVector)).length
      (singletons (scale (baseline.map featureVector)).length)).length ≤ k := by
    apply mergeLoop_length_le _ hk
    rw [singletons, List.length_map, List.length_range]
    omega
  have hcard : ((segment_clients_hierarchical scale k baseline).map Prod.snd).toFinset.card ≤ k := by
    refine le_trans (Finset.card_le_card ?_) (le_of_eq (Finset.card_range k))
    intro x hx
    rw [List.mem_toFinset] at hx
    obtain ⟨pr, hpr, hx⟩ := List.mem_map.mp hx
    subst hx
    rw [segment_clients_hierarchical] at hpr
    exact Finset.mem_range.mpr (lt_of_lt_of_le (fit_predict_label_lt hpr) hfin)
  refine ⟨hcard, ?_⟩
  rw [calculate_cohort_profiles, List.length_map]
  calc ((segment_clients_hierarchical scale k baseline).map Prod.snd).dedup.length
      = ((segment_clients_hierarchical scale k baseline).map Prod.snd).toFinset.card :=
        (List.card_toFinset _).symm
    _ ≤ k := hcard

/-- Claim C6 (confirmed). The z-band lower bound is always clipped at 0;
and for a client with exactly one (nonnegative) observation the band
collapses to `[value, value]` — the standard deviation being treated as
0 — and that very observation is not out of band. -/
theorem c6_single_observation_band :
    (∀ (sigma : List ℚ → ℚ) (z : ℚ) (df : Df) (s : TsStat),
      s ∈ calculate_client_statistics sigma z df → 0 ≤ s.ci_lower) ∧
    (∀ (sigma : List ℚ → ℚ) (z : ℚ) (df : Df) (c : Nat) (r : RawRecord),
      clientRows df c = [r] → 0 ≤ rowTotal r →
      ∃ s, (calculate_client_statistics sigma z df).find? (fun t => t.client == c) = some s ∧
        s.ci_lower = rowTotal r ∧ s.ci_upper = rowTotal r ∧
        isOutOfBand s.ci_lower s.ci_upper (rowTotal r) = false) := by
  constructor
  · intro sigma z df s hs
    obtain ⟨c, _, hc⟩ := List.mem_map.mp hs
    subst hc
    exact le_max_left _ _
  · intro sigma z df c r hrows hr0
    have hrmem : r ∈ clientRows df c := by rw [hrows]; exact List.mem_cons_self _ _
    obtain ⟨hrdf, hrcl⟩ := List.mem_filter.mp hrmem
    have hcmem : c ∈ uniqueClients df :=
      List.mem_dedup.mpr (List.mem_map.mpr ⟨r, hrdf, by simpa using hrcl⟩)
    have hex : ∃ s ∈ calculate_client_statistics sigma z df, (s.client == c) = true :=
      ⟨statFor sigma z df c, List.mem_map_of_mem _ hcmem, by simp [statFor]⟩
    obtain ⟨s, hsome⟩ := Option.isSome_iff_exists.mp (List.find?_isSome.mpr hex)
    have hscl : s.client = c := by simpa using List.find?_some hsome
    obtain ⟨c', _, hc'⟩ := List.mem_map.mp (List.mem_of_find?_eq_some hsome)
    have hc'c : c' = c := by
      have := congrArg TsStat.client hc'
      simpa [statFor, hscl] using this
    subst hc'c
    have hfields : s.ci_lower = rowTotal r ∧ s.ci_upper = rowTotal r := by
      rw [← hc']
      have hobs : (clientRows df c').map rowTotal = [rowTotal r] := by rw [hrows]; rfl
      simp only [statFor, hobs]
      constructor
      · rw [if_pos (by norm_num : ([rowTotal r].length) ≤ 1)]
        rw [mul_zero, sub_zero]
        have hmean : mean [rowTotal r] = rowTotal r := by
          rw [mean]; norm_num
        rw [hmean, max_eq_right hr0]
      · rw [if_pos (by norm_num : ([rowTotal r].length) ≤ 1)]
        rw [mul_zero, add_zero]
        rw [mean]; norm_num
    refine ⟨s, hsome, hfields.1, hfields.2, ?_⟩
    rw [hfields.1, hfields.2, isOutOfBand]
    simp [lt_irrefl]

/-- Claim C7 (confirmed). A client whose positive-turnover history is empty
gets no baseline row (and the calculator is total — no error), and every
emitted anomaly record belongs to a client present in the baseline table,
so observations of absent clients are silently skipped. -/
theorem c7_empty_history_skipped :
    (∀ (sigma : List ℚ → ℚ) (df : Df) (c : Nat), clientOborots df c = [] →
      ∀ r ∈ calculate_client_baseline sigma df, r.client ≠ c) ∧
    (∀ (df : Df) (b : List BaselineRecord) (a : AnomalyRecord), a ∈ identify_anomalies df b →
      ∃ p ∈ b, p.client = a.client) := by
  constructor
  · intro sigma df c hc r hr hrc
    obtain ⟨hne, _⟩ := mem_baseline_inv hr
    rw [hrc] at hne
    exact hne hc
  · intro df b a h
    obtain ⟨p, hp, h1, _⟩ := anomaly_mem_inv h
    exact ⟨p, hp, h1⟩

/-- Claim C8 (confirmed). The pipeline is a pure function of the input
extract and the configuration: two runs on equal inputs produce equal
baseline, anomaly, and cohort-profile tables. -/
theorem c8_pipeline_deterministic (sigma : List ℚ → ℚ)
    (scale : List (List ℚ) → List (List ℚ)) (k : Nat) (df₁ df₂ : Df) (h : df₁ = df₂) :
    runPipeline sigma scale k df₁ = runPipeline sigma scale k df₂ := by
  rw [h]

/-- Claim C9 (confirmed). A run writes either no output file or all three,
in which case they are exactly `client_baseline.csv`, `anomalies.csv`,
`cohort_profiles.csv`: every failure path of `main` precedes the first
write. -/
theorem c9_all_or_nothing_outputs (sigma : List ℚ → ℚ)
    (scale : List (List ℚ) → List (List ℚ)) (k : Nat) (load : Except StageError Df) :
    (mainRun sigma scale k load).2.map Prod.fst = [] ∨
      (mainRun sigma scale k load).2.map Prod.fst =
        ["client_baseline.csv", "anomalies.csv", "cohort_profiles.csv"] := by
  rcases load with e | df
  · left; rfl
  · rw [mainRun]
    by_cases h0 : (calculate_client_baseline sigma df).length = 0
    · rw [if_pos h0]; left; rfl
    · rw [if_neg h0]
      by_cases h1 : (calculate_client_baseline sigma df).length < k
      · rw [if_pos h1]; left; rfl
      · rw [if_neg h1]; right; rfl

/-- Claim C10 (confirmed). The out-of-band test both strategies use is
strict, so a value equal to either bound of an ordered band is never
flagged; and the emitted bands are ordered — unconditionally for the
percentile band, and under nonnegative data/z-score/standard deviation
for the z-band. -/
theorem c10_boundary_not_flagged :
    (∀ lo hi x : ℚ, lo ≤ hi → (x = lo ∨ x = hi) → isOutOfBand lo hi x = false) ∧
    (∀ (sigma : List ℚ → ℚ) (df : Df) (r : BaselineRecord),
      r ∈ calculate_client_baseline sigma df → r.ci_lower ≤ r.ci_upper) ∧
    (∀ (sigma : List ℚ → ℚ) (z : ℚ) (df : Df) (s : TsStat), 0 ≤ z →
      (∀ l, 0 ≤ sigma l) → (∀ row ∈ df, 0 ≤ rowTotal row) →
      s ∈ calculate_client_statistics sigma z df → s.ci_lower ≤ s.ci_upper) := by
  refine ⟨?_, ?_, ?_⟩
  · intro lo hi x hle hx
    rw [isOutOfBand]
    rcases hx with rfl | rfl
    · simp only [Bool.or_eq_false_iff, decide_eq_false_iff_not]
      exact ⟨lt_irrefl _, not_lt.mpr hle⟩
    · simp only [Bool.or_eq_false_iff, decide_eq_false_iff_not]
      exact ⟨not_lt.mpr hle, lt_irrefl _⟩
  · intro sigma df r h
    obtain ⟨_, _, _, hlo, hhi, _⟩ := mem_baseline_inv h
    rw [hlo, hhi]
    exact percentile_mono _ (by norm_num) (by norm_num) (by norm_num)
  · intro sigma z df s hz hsig hrows hs
    obtain ⟨c, _, hc⟩ := List.mem_map.mp hs
    subst hc
    simp only [statFor]
    have hm : 0 ≤ mean ((clientRows df c).map rowTotal) := by
      apply div_nonneg _ (Nat.cast_nonneg _)
      apply List.sum_nonneg
      intro x hx
      obtain ⟨row, hrow, hxr⟩ := List.mem_map.mp hx
      rw [← hxr]
      exact hrows row (List.mem_filter.mp hrow).1
    have hsd : 0 ≤ (if ((clientRows df c).map rowTotal).length ≤ 1 then 0
        else sigma ((clientRows df c).map rowTotal)) := by
      split_ifs
      · exact le_refl 0
      · exact hsig _
    have hzsd : 0 ≤ z * (if ((clientRows df c).map rowTotal).length ≤ 1 then 0
        else sigma ((clientRows df c).map rowTotal)) := mul_nonneg hz hsd
    exact max_le (by linarith) (by linarith)

/-! ### Concrete inputs for witnesses and counterexamples -/

/-- A concrete value for the abstracted standard-deviation routine. -/
def sigma0 : List ℚ → ℚ := fun _ => 0

/-- A concrete identity scaling (row-count preserving). -/
def scale0 : List (List ℚ) → List (List ℚ) := fun x => x

/-- Approximation of `z = norm.ppf(0.95)`: a concrete nonnegative z-score. -/
def z0 : ℚ := 1645 / 1000

/-- One client, one period, one positive turnover. -/
def df0 : Df := [⟨1, [5], 0⟩]

/-- The baseline row `calculate_client_baseline` emits on `df0`. -/
def r0 : BaselineRecord := ⟨1, 5, 0, 0, 5, 5, 1, 1, 0⟩

/-- Counterexample input for C1: one period, seven category turnovers
`[1, 10, 10, 10, 10, 10, 10]` — mean `61/7 ≈ 8.71`, 15th percentile
`9.1`. -/
def dfC1 : Df := [⟨1, [1, 10, 10, 10, 10, 10, 10], 0⟩]

/-- Counterexample input for C2: one spend category, four periods with
positive spend. -/
def dfC2 : Df := [⟨1, [1], 0⟩, ⟨1, [1], 0⟩, ⟨1, [1], 0⟩, ⟨1, [1], 0⟩]

/-- Counterexample input for C4: history `[100, 100]` then a low period
`[10]`. -/
def dfC4 : Df := [⟨1, [100, 100], 0⟩, ⟨1, [10], 0⟩]

/-- One client with a single period, total turnover `5 ≥ 0`. -/
def dfTs : Df := [⟨7, [3, 2], 0⟩]

/-- One client whose only entry is non-positive: empty filtered history. -/
def dfNeg : Df := [⟨2, [-1], 0⟩]

/-- A two-row baseline table for the clustering witness. -/
def blW : List BaselineRecord := [⟨1, 5, 0, 0, 5, 5, 1, 1, 0⟩, ⟨2, 9, 0, 0, 9, 9, 1, 1, 0⟩]

/-- Modelled from the spec: the number of *spend categories* (turnover
columns, out of `ncols`) in which the client has at least one positive
entry — the notion `C2` quantifies over, which the source never computes
(its concentration runs over flattened category-period entries instead). -/
def specNonzeroCategoryCount (df : Df) (c : Nat) (ncols : Nat) : Nat :=
  ((List.range ncols).filter (fun j =>
    (clientRows df c).any (fun r => decide (0 < r.turnovers.getD j 0)))).length

/-- A singleton list has every percentile equal to its element. -/
lemma percentile_singleton (v q : ℚ) : percentile [v] q = v :=
  percentile_const (by intro x hx; simpa using hx) (by simp) q

/-- The mean of a singleton list is its element. -/
lemma mean_singleton (v : ℚ) : mean [v] = v := by
  rw [mean]; norm_num

/-- The record `baselineFor` emits for a client with nonempty positive
history. -/
lemma baselineFor_eq_some {sigma : List ℚ → ℚ} {df : Df} {c : Nat}
    (hne : clientOborots df c ≠ []) :
    baselineFor sigma df c = some
      { client := c
        mean_oborot := mean (clientOborots df c)
        std_oborot := sigma (clientOborots df c)
        cv := cvOf (clientOborots df c)
        ci_lower := percentile (clientOborots df c) 15
        ci_upper := percentile (clientOborots df c) 85
        transactions := (clientOborots df c).length
        concentration := concentrationOf (clientOborots df c)
        age := ageOf df c } := by
  rw [baselineFor, if_neg hne]

/-- Evaluation of the baseline table on `df0`. -/
lemma baseline_df0 : calculate_client_baseline sigma0 df0 = [r0] := by
  have hu : uniqueClients df0 = [1] := by decide
  have hl : clientOborots df0 1 = [5] := by
    norm_num [clientOborots, clientRows, positives, df0, List.filter, List.flatMap]
  have hcv : cvOf [(5:ℚ)] = 0 := by
    rw [cvOf, percentile_singleton, percentile_singleton, percentile_singleton,
      if_pos (by norm_num : (0:ℚ) < 5)]
    norm_num
  have hconc : concentrationOf [(5:ℚ)] = 1 := by
    rw [concentrationOf, if_neg (List.cons_ne_nil _ _)]
    norm_num
  have hage : ageOf df0 1 = 0 := by
    rw [ageOf]
    norm_num [clientRows, df0, List.filter]
  have hbf : baselineFor sigma0 df0 1 = some r0 := by
    rw [baselineFor, hl, if_neg (List.cons_ne_nil _ _), mean_singleton, hcv,
      percentile_singleton, percentile_singleton, hconc, hage]
    rfl
  rw [calculate_client_baseline, hu]
  simp [List.filterMap_cons, hbf]

/-! ### Counterexamples -/

/-- Counterexample to C1. On `dfC1` the emitted baseline row has
`mean = 61/7 < 91/10 = ci_lower`: the band bounds do not bracket the
mean. -/
theorem c1_cex_lower_bound_exceeds_mean :
    ∃ r ∈ calculate_client_baseline sigma0 dfC1, r.mean_oborot < r.ci_lower := by
  have hu : uniqueClients dfC1 = [1] := by decide
  have hl : clientOborots dfC1 1 = [1, 10, 10, 10, 10, 10, 10] := by
    norm_num [clientOborots, clientRows, positives, dfC1, List.filter, List.flatMap]
  have hne : clientOborots dfC1 1 ≠ [] := by rw [hl]; exact List.cons_ne_nil _ _
  refine ⟨_, List.mem_filterMap.mpr
    ⟨1, by rw [hu]; exact List.mem_cons_self _ _, baselineFor_eq_some hne⟩, ?_⟩
  show mean (clientOborots dfC1 1) < percentile (clientOborots dfC1 1) 15
  rw [hl]
  have hs : sortQ [1, 10, 10, 10, 10, 10, 10] = [1, 10, 10, 10, 10, 10, 10] := by
    norm_num [sortQ, List.insertionSort, List.orderedInsert]
  rw [percentile_eval hs (by norm_num) (by norm_num : (15:ℚ) * (((7:ℕ):ℚ) - 1) / 100 = 9/10)
    (by rw [show ⌊(9:ℚ)/10⌋ = 0 by norm_num]; try rfl) (by norm_num) rfl rfl]
  rw [mean]
  norm_num

/-- Counterexample to C2. On `dfC2` the client spends in a single
category (`specNonzeroCategoryCount = 1 ≤ 3`), yet the emitted
concentration is `3/4 ≠ 1`: the source computes concentration over
flattened category-period entries, not per-category totals. -/
theorem c2_cex_one_category_concentration_below_one :
    specNonzeroCategoryCount dfC2 1 1 = 1 ∧
      ∃ r ∈ calculate_client_baseline sigma0 dfC2, r.concentration ≠ 1 := by
  have hl : clientOborots dfC2 1 = [1, 1, 1, 1] := by
    norm_num [clientOborots, clientRows, positives, dfC2, List.filter, List.flatMap]
  constructor
  · norm_num [specNonzeroCategoryCount, clientRows, dfC2, List.range, List.filter, List.any]
  · have hu : uniqueClients dfC2 = [1] := by decide
    have hne : clientOborots dfC2 1 ≠ [] := by rw [hl]; exact List.cons_ne_nil _ _
    refine ⟨_, List.mem_filterMap.mpr
      ⟨1, by rw [hu]; exact List.mem_cons_self _ _, baselineFor_eq_some hne⟩, ?_⟩
    show concentrationOf (clientOborots dfC2 1) ≠ 1
    rw [hl, concentrationOf, if_neg (List.cons_ne_nil _ _)]
    have hs : sortQ [1, 1, 1, 1] = [1, 1, 1, 1] := by
      norm_num [sortQ, List.insertionSort, List.orderedInsert]
    rw [if_pos (by norm_num : 3 ≤ ([1, 1, 1, 1] : List ℚ).length), hs]
    norm_num

/-- The anomaly record emitted for the low period of `dfC4`. -/
def a4 : AnomalyRecord := ⟨1, AType.low, 10, 6000/71, APriority.high⟩

/-- Membership of `a4` in the anomalies table of `dfC4`. -/
lemma a4_mem_anomalies : a4 ∈ identify_anomalies dfC4 (calculate_client_baseline sigma0 dfC4) := by
  have hu : uniqueClients dfC4 = [1] := by decide
  have hl : clientOborots dfC4 1 = [100, 100, 10] := by
    norm_num [clientOborots, clientRows, positives, dfC4, List.filter, List.flatMap]
  have hne : clientOborots dfC4 1 ≠ [] := by rw [hl]; exact List.cons_ne_nil _ _
  have hs : sortQ [100, 100, 10] = [10, 100, 100] := by
    norm_num [sortQ, List.insertionSort, List.orderedInsert]
  have h15 : percentile [(100:ℚ), 100, 10] 15 = 37 := by
    rw [percentile_eval hs (by norm_num) (by norm_num : (15:ℚ) * (((3:ℕ):ℚ) - 1) / 100 = 3/10)
      (by rw [show ⌊(3:ℚ)/10⌋ = 0 by norm_num]; try rfl) (by norm_num) rfl rfl]
    norm_num
  have h85 : percentile [(100:ℚ), 100, 10] 85 = 100 := by
    rw [percentile_eval hs (by norm_num) (by norm_num : (85:ℚ) * (((3:ℕ):ℚ) - 1) / 100 = 17/10)
      (by rw [show ⌊(17:ℚ)/10⌋ = 1 by norm_num]; try rfl) (by norm_num) rfl rfl]
    norm_num
  have hm4 : mean [(100:ℚ), 100, 10] = 70 := by
    rw [mean]; norm_num
  obtain ⟨rec, hbase, hcl, hm, hlo, hhi⟩ :
      ∃ rec, calculate_client_baseline sigma0 dfC4 = [rec] ∧ rec.client = 1 ∧
        rec.mean_oborot = 70 ∧ rec.ci_lower = 37 ∧ rec.ci_upper = 100 := by
    rw [calculate_client_baseline, hu, List.filterMap_cons, baselineFor_eq_some hne,
      List.filterMap_nil]
    refine ⟨_, rfl, rfl, ?_, ?_, ?_⟩
    · show mean (clientOborots dfC4 1) = 70
      rw [hl]; exact hm4
    · show percentile (clientOborots dfC4 1) 15 = 37
      rw [hl]; exact h15
    · show percentile (clientOborots dfC4 1) 85 = 100
      rw [hl]; exact h85
  have hp10 : positives [(10:ℚ)] = [10] := by norm_num [positives, List.filter]
  have hanom : anomalyFor (calculate_client_baseline sigma0 dfC4) ⟨1, [10], 0⟩ =
      some ⟨1, AType.low, 10, 6000/71, APriority.high⟩ := by
    rw [anomalyFor]
    dsimp only
    rw [hp10, if_neg (List.cons_ne_nil _ _), hbase,
      List.find?_cons_of_pos _ (by rw [hcl]; simp), Option.some_bind,
      if_pos (by rw [hlo, hhi, mean_singleton]; norm_num [isOutOfBand])]
    rw [mean_singleton, hm, hhi]
    have habs : |((10:ℚ) - 70) / (70 + 1) * 100| = 6000/71 := by
      rw [abs_of_neg (by norm_num)]
      norm_num
    rw [habs, if_neg (by norm_num : ¬(100:ℚ) < 10), if_pos (by norm_num : (30:ℚ) < 6000/71)]
  exact List.mem_filterMap.mpr
    ⟨⟨1, [10], 0⟩, List.mem_cons_of_mem _ (List.mem_cons_self _ _), hanom⟩

/-- Counterexample to C4. On `dfC4` the low-period row is flagged `low`,
but its recorded deviation percentage is positive (`6000/71`), not
negative: the percentile strategy stores `abs(deviation_pct)`. -/
theorem c4_cex_low_anomaly_positive_deviation :
    ∃ a ∈ identify_anomalies dfC4 (calculate_client_baseline sigma0 dfC4),
      a.atype = AType.low ∧ 0 < a.deviation :=
  ⟨a4, a4_mem_anomalies, rfl, by norm_num [a4]⟩

/-! ### Witnesses -/

/-- Witness for C1 at `df0`/`r0`. -/
theorem c1_witness :
    r0.ci_lower ≤ percentile (clientOborots df0 r0.client) 50 ∧
      percentile (clientOborots df0 r0.client) 50 ≤ r0.ci_upper :=
  c1_band_brackets_median sigma0 df0 r0 (by rw [baseline_df0]; exact List.mem_cons_self _ _)

/-- Witness for C2 at `df0`/`r0`. -/
theorem c2_witness :
    (0 ≤ r0.concentration ∧ r0.concentration ≤ 1) ∧
      ((clientOborots df0 r0.client).length ≤ 3 → r0.concentration = 1) :=
  c2_concentration_bounds sigma0 df0 r0 (by rw [baseline_df0]; exact List.mem_cons_self _ _)

/-- Witness for C3 at `df0`/`r0`. -/
theorem c3_witness :
    (r0.cv = if 0 < percentile (clientOborots df0 r0.client) 50 then
        (percentile (clientOborots df0 r0.client) 65 - percentile (clientOborots df0 r0.client) 35) /
          percentile (clientOborots df0 r0.client) 50
      else 0) ∧
    0 ≤ r0.cv ∧
    ((∀ x ∈ clientOborots df0 r0.client, ∀ y ∈ clientOborots df0 r0.client, x = y) → r0.cv = 0) :=
  c3_dispersion_ratio sigma0 df0 r0 (by rw [baseline_df0]; exact List.mem_cons_self _ _)

/-- Witness for C4 at the anomaly `a4` of `dfC4`. -/
theorem c4_witness :
    ∃ p ∈ calculate_client_baseline sigma0 dfC4, p.client = a4.client ∧
      a4.deviation = |(a4.current - p.mean_oborot) / (p.mean_oborot + 1) * 100| ∧
      (a4.priority = APriority.high ↔ 30 < a4.deviation) :=
  c4_deviation_and_priority.1 dfC4 (calculate_client_baseline sigma0 dfC4) a4 a4_mem_anomalies

/-- Witness for C5 at the two-row table `blW` with `k = 1`. -/
theorem c5_witness :
    ((segment_clients_hierarchical scale0 1 blW).map Prod.snd).toFinset.card ≤ 1 ∧
      (calculate_cohort_profiles blW (segment_clients_hierarchical scale0 1 blW)).length ≤ 1 :=
  c5_cohort_count_bounded scale0 1 blW (by norm_num) (by norm_num [blW])

/-- Witness for C6 at the single-observation client of `dfTs`. -/
theorem c6_witness :
    ∃ s, (calculate_client_statistics sigma0 z0 dfTs).find?
        (fun t => t.client == (7:Nat)) = some s ∧
      s.ci_lower = rowTotal ⟨7, [3, 2], 0⟩ ∧ s.ci_upper = rowTotal ⟨7, [3, 2], 0⟩ ∧
      isOutOfBand s.ci_lower s.ci_upper (rowTotal ⟨7, [3, 2], 0⟩) = false :=
  c6_single_observation_band.2 sigma0 z0 dfTs 7 ⟨7, [3, 2], 0⟩
    (by simp [clientRows, dfTs]) (by norm_num [rowTotal])

/-- Witness for C7 at the all-non-positive client of `dfNeg`. -/
theorem c7_witness :
    clientOborots dfNeg 2 = [] ∧
      ∀ r ∈ calculate_client_baseline sigma0 dfNeg, r.client ≠ 2 := by
  have h : clientOborots dfNeg 2 = [] := by
    norm_num [clientOborots, clientRows, positives, dfNeg, List.filter, List.flatMap]
  exact ⟨h, c7_empty_history_skipped.1 sigma0 dfNeg 2 h⟩

/-- Witness for C8: two runs on `df0` coincide. -/
theorem c8_witness :
    runPipeline sigma0 scale0 1 df0 = runPipeline sigma0 scale0 1 df0 :=
  c8_pipeline_deterministic sigma0 scale0 1 df0 df0 rfl

/-- Witness for C10 at the z-band statistics of `dfTs`. -/
theorem c10_witness :
    (statFor sigma0 z0 dfTs 7).ci_lower ≤ (statFor sigma0 z0 dfTs 7).ci_upper :=
  c10_boundary_not_flagged.2.2 sigma0 z0 dfTs (statFor sigma0 z0 dfTs 7)
    (by norm_num [z0]) (fun _ => le_refl 0)
    (by intro row h; simp [dfTs] at h; subst h; norm_num [rowTotal])
    (List.mem_map_of_mem _ (by decide : (7:Nat) ∈ uniqueClients dfTs))

end FinHelper
